import Mathlib

/-!
Shallow embedding of the manual tile-distribution subsystem of the
tiles-web repository (src/src/game.ts: GuiGame and FactoryDropHandler;
src/unnamed/part_000: BagView), together with proofs settling the frozen
claims about it.

Colors are JavaScript numbers, embedded as Int (the engine sentinel
Tile.Null is negative).  Tile-count maps are embedded as total functions
from Nat to Nat: the BagView tileCounts object has exactly the keys
0..4, and a missing key reads as 0.
-/

namespace TilesWeb

/-! ## JavaScript parseInt, as used by FactoryDropHandler.handleDrop -/

/-- Decimal digit value of a character, none when the character is not a
digit.  Mirrors the digits accepted by JavaScript parseInt in base 10. -/
def decDigitVal (c : Char) : Option Nat :=
  if c.isDigit then some (c.toNat - 48) else none

/-- Hexadecimal digit value of a character, for the 0x prefix path of
JavaScript parseInt. -/
def hexDigitVal (c : Char) : Option Nat :=
  if c.isDigit then some (c.toNat - 48)
  else if 'a' ≤ c ∧ c ≤ 'f' then some (c.toNat - 87)
  else if 'A' ≤ c ∧ c ≤ 'F' then some (c.toNat - 55)
  else none

/-- Accumulate the longest run of digits, stopping at the first
non-digit, as JavaScript parseInt does. -/
def digitRun (f : Char → Option Nat) (base : Nat) : List Char → Nat → Nat
  | [], acc => acc
  | c :: rest, acc =>
    match f c with
    | none => acc
    | some d => digitRun f base rest (acc * base + d)

/-- Parse a non-empty run of digits; none when the first character is
not a digit (JavaScript parseInt yields NaN there). -/
def parseDigits (f : Char → Option Nat) (base : Nat) : List Char → Option Nat
  | [] => none
  | c :: rest =>
    match f c with
    | none => none
    | some d => some (digitRun f base rest d)

/-- Unsigned part of JavaScript parseInt with unspecified radix: a 0x or
0X prefix switches to base 16, otherwise base 10. -/
def parseUnsigned (cs : List Char) : Option Nat :=
  match cs with
  | '0' :: x :: rest =>
    if x = 'x' ∨ x = 'X' then parseDigits hexDigitVal 16 rest
    else parseDigits decDigitVal 10 ('0' :: x :: rest)
  | _ => parseDigits decDigitVal 10 cs

/-- Whitespace skipped by JavaScript parseInt before the number. -/
def isJsSpace (c : Char) : Bool :=
  c == ' ' || c == '\t' || c == '\n' || c == '\r'

/-- JavaScript parseInt on a string, returning none for NaN: skip
leading whitespace, optional sign, then the longest digit prefix. -/
def jsParseInt (s : String) : Option Int :=
  let cs := s.toList.dropWhile isJsSpace
  match cs with
  | '-' :: rest => (parseUnsigned rest).map (fun n => -(n : Int))
  | '+' :: rest => (parseUnsigned rest).map (fun n => (n : Int))
  | _ => (parseUnsigned cs).map (fun n => (n : Int))

/-- The payload validation chain of FactoryDropHandler.handleDrop
(game.ts lines 562-566): reject an absent or empty payload, a NaN parse,
and a color outside 0..4; otherwise yield the parsed color. -/
def parseColor (payload : Option String) : Option Int :=
  match payload with
  | none => none
  | some s =>
    if s = "" then none
    else
      match jsParseInt s with
      | none => none
      | some c => if c < 0 ∨ 4 < c then none else some c

/-! ## FactoryDropHandler state (game.ts lines 493-715)

The handler keeps a Map from factoryId to a FactoryState holding the
placed tile colors.  The Map (unique keys, lookup then in-place
mutation) is embedded as an association list updated at the first
matching key. -/

/-- Per-factory state tracked by FactoryDropHandler during distribution
(the DOM element fields are presentation only and are omitted). -/
structure FactoryState where
  factoryId : Nat
  tiles : List Int
  deriving DecidableEq, Repr

/-- The Map lookup this.factories.get(factoryId). -/
def findFactory (fs : List FactoryState) (id : Nat) : Option FactoryState :=
  fs.find? (fun f => f.factoryId == id)

/-- FactoryDropHandler.addTileToFactory (game.ts lines 593-607): false
when the factory is unknown or already holds 4 tiles, otherwise append
the color and report true.  Returns the flag together with the updated
factory table. -/
def addTileToFactory : List FactoryState → Nat → Int → Bool × List FactoryState
  | [], _, _ => (false, [])
  | f :: rest, id, color =>
    if f.factoryId = id then
      if 4 ≤ f.tiles.length then (false, f :: rest)
      else (true, { f with tiles := f.tiles ++ [color] } :: rest)
    else
      let r := addTileToFactory rest id color
      (r.1, f :: r.2)

/-- FactoryDropHandler.removeTileFromFactory (game.ts lines 610-623):
none when the factory is unknown or the slot is beyond the current
contents, otherwise splice out and return the tile at that slot. -/
def removeTileFromFactory : List FactoryState → Nat → Nat → Option Int × List FactoryState
  | [], _, _ => (none, [])
  | f :: rest, id, slot =>
    if f.factoryId = id then
      if slot < f.tiles.length then
        (f.tiles[slot]?, { f with tiles := f.tiles.eraseIdx slot } :: rest)
      else (none, f :: rest)
    else
      let r := removeTileFromFactory rest id slot
      (r.1, f :: r.2)

/-- Total number of tiles placed across all factories, the accumulation
performed by FactoryDropHandler.isComplete and getTotalTilesPlaced. -/
def totalPlaced (fs : List FactoryState) : Nat :=
  (fs.map (fun f => f.tiles.length)).sum

/-- FactoryDropHandler.isComplete (game.ts lines 653-662): placement is
complete once the number of placed tiles reaches the smaller of the
available total and the capacity of all factories. -/
def isComplete (fs : List FactoryState) (totalTilesAvailable : Nat) : Bool :=
  decide (min totalTilesAvailable (fs.length * 4) ≤ totalPlaced fs)

/-- Ascending insertion into a sorted list, used to embed the JavaScript
numeric sort of the factory ids. -/
def insertAsc (x : Nat) : List Nat → List Nat
  | [] => [x]
  | y :: rest => if x ≤ y then x :: y :: rest else y :: insertAsc x rest

/-- Ascending sort of the factory ids, the sort((a, b) => a - b) call in
getFactoryConfiguration. -/
def sortNat (l : List Nat) : List Nat := l.foldr insertAsc []

/-- FactoryDropHandler.getFactoryConfiguration (game.ts lines 674-687):
walk the factory ids in ascending order and collect a copy of each
factory's tile list. -/
def getFactoryConfiguration (fs : List FactoryState) : List (List Int) :=
  let sortedIds := sortNat (fs.map (fun f => f.factoryId))
  sortedIds.filterMap (fun id => (findFactory fs id).map (fun f => f.tiles))

/-- FactoryDropHandler.setupDropZones (game.ts lines 513-543): one empty
factory per element, with ids 1..n (the centre, id 0, is skipped). -/
def setupDropZones (n : Nat) : List FactoryState :=
  (List.range n).map (fun i => { factoryId := i + 1, tiles := [] })

/-! ## BagView state (src/unnamed/part_000) -/

/-- Point update of a tile-count map, the JavaScript assignment
tileCounts at a key. -/
def setCount (f : Nat → Nat) (i v : Nat) : Nat → Nat :=
  fun j => if j = i then v else f j

/-- The mutable state of BagView that the claims are about: the
per-color counts object and the tilesPlaced counter (an Int, since the
JavaScript counter is a plain number that decrements freely). -/
structure BagState where
  tileCounts : Nat → Nat
  tilesPlaced : Int

/-- BagView.countTilesInBag (part_000 lines 31-39): counts keyed 0..4,
incremented for every bag tile in that range; any other key is absent
and reads 0. -/
def countTilesInBag (bag : List Int) : Nat → Nat :=
  fun c => if c ≤ 4 then bag.count (c : Int) else 0

/-- BagView.tilePlaced (part_000 lines 130-137): when the count of the
color is positive, decrement it and increment tilesPlaced; otherwise do
nothing. -/
def tilePlaced (b : BagState) (color : Int) : BagState :=
  if 0 < b.tileCounts color.toNat then
    { tileCounts := setCount b.tileCounts color.toNat (b.tileCounts color.toNat - 1),
      tilesPlaced := b.tilesPlaced + 1 }
  else b

/-- BagView.tileReturned (part_000 lines 140-145): unconditionally
increment the count of the color and decrement tilesPlaced. -/
def tileReturned (b : BagState) (color : Int) : BagState :=
  { tileCounts := setCount b.tileCounts color.toNat (b.tileCounts color.toNat + 1),
    tilesPlaced := b.tilesPlaced - 1 }

/-- Sum of the five count entries, the Object.values reduce performed by
BagView (the counts object has exactly the keys 0..4). -/
def sumCounts (f : Nat → Nat) : Nat := f 0 + f 1 + f 2 + f 3 + f 4

/-! ## The wired distribution state

GuiGame wires FactoryDropHandler's drop and remove callbacks to
BagView.tilePlaced and BagView.tileReturned (game.ts lines 402-408).
DistState bundles the components the way GuiGame holds them: the
BagView state, the handler's factory table, GuiGame.ourBag and
GuiGame.discardedTiles, and the handler's enabled flag. -/

structure DistState where
  bag : BagState
  factories : List FactoryState
  ourBag : List Int
  discard : List Int
  enabled : Bool

/-- FactoryDropHandler.handleDrop (game.ts lines 556-574) together with
the wired onTileDropped callback: validate the payload, try
addTileToFactory, and only on success fire the callback, which runs
BagView.tilePlaced.  The second component records the callback
invocation, if any. -/
def handleDrop (st : DistState) (factoryId : Nat) (payload : Option String) :
    DistState × Option (Nat × Int) :=
  if st.enabled = false then (st, none)
  else
    match parseColor payload with
    | none => (st, none)
    | some color =>
      let r := addTileToFactory st.factories factoryId color
      if r.1 then
        ({ st with factories := r.2, bag := tilePlaced st.bag color }, some (factoryId, color))
      else (st, none)

/-- FactoryDropHandler.handleTileClick (game.ts lines 576-590) together
with the wired onTileRemoved callback: when the slot holds a tile, read
its color, remove it, and fire the callback, which runs
BagView.tileReturned. -/
def handleTileClick (st : DistState) (factoryId slotIndex : Nat) :
    DistState × Option (Nat × Int) :=
  if st.enabled = false then (st, none)
  else
    match findFactory st.factories factoryId with
    | none => (st, none)
    | some f =>
      if slotIndex < f.tiles.length then
        let color := f.tiles.getD slotIndex (-1)
        let r := removeTileFromFactory st.factories factoryId slotIndex
        ({ st with factories := r.2, bag := tileReturned st.bag color },
         some (factoryId, color))
      else (st, none)

/-- The operator events handled during the distribution phase: a drop
on a factory slot carrying a drag payload, and a click on a factory
slot to remove a tile. -/
inductive DistOp where
  | drop (factoryId : Nat) (payload : Option String)
  | click (factoryId slotIndex : Nat)

/-- One event handled to completion, state part only. -/
def stepOp (st : DistState) : DistOp → DistState
  | DistOp.drop f p => (handleDrop st f p).1
  | DistOp.click f s => (handleTileClick st f s).1

/-- A sequence of operator events handled in order. -/
def runOps (st : DistState) (ops : List DistOp) : DistState := ops.foldl stepOp st

/-! ## GuiGame phase entry and apply (game.ts lines 361-488) -/

/-- The azul-tiles sentinel Tile.Null, a negative number distinct from
every color 0..4 (the external library is out of scope; only its
negativity matters to the filter below). -/
def tileNullVal : Int := -1

/-- The GuiGame fields involved in entering a distribution phase: the
engine's factory array (index 0 is the centre), the engine's tilebag,
and GuiGame's own bag and discard pile. -/
structure GamePhase where
  engineFactory : List (List Int)
  tilebag : List Int
  ourBag : List Int
  discard : List Int

/-- GuiGame.restoreTilesToBag (game.ts lines 419-432): push every
non-null, non-negative tile of factories 1..n back into the engine
tilebag and clear those factories; the centre is untouched. -/
def restoreTilesToBag (factory : List (List Int)) (tilebag : List Int) :
    List (List Int) × List Int :=
  match factory with
  | [] => ([], tilebag)
  | centre :: rest =>
    (centre :: rest.map (fun _ => []),
     tilebag ++ (rest.map (fun f => f.filter (fun t => t != tileNullVal && decide (0 ≤ t)))).flatten)

/-- The first-round initialization step of enterManualDistributionPhase
(game.ts lines 368-374): only when ourBag is empty, restore factory
tiles to the engine tilebag and copy that tilebag as ourBag; otherwise
do nothing at all. -/
def initOurBagIfEmpty (g : GamePhase) : GamePhase :=
  if g.ourBag.length = 0 then
    let r := restoreTilesToBag g.engineFactory g.tilebag
    { g with engineFactory := r.1, tilebag := r.2, ourBag := r.2 }
  else g

/-- Modelled from the spec: the failure policy of section 7 demands that
initializeFromExternalState invoked a second time fail fast; no such
failing operation exists in the source, so the claimed behavior is
embedded here for comparison with initOurBagIfEmpty. -/
def initFromExternalStateFailFast (g : GamePhase) : Except Unit GamePhase :=
  if g.ourBag.length = 0 then Except.ok (initOurBagIfEmpty g)
  else Except.error ()

/-- The refill step of enterManualDistributionPhase (game.ts lines
377-381): when ourBag holds fewer tiles than the round needs and the
discard pile is non-empty, append the whole discard pile to ourBag and
empty it. -/
def refillFromDiscardIfNeeded (g : GamePhase) (tilesPerRound : Nat) : GamePhase :=
  if g.ourBag.length < tilesPerRound ∧ 0 < g.discard.length then
    { g with ourBag := g.ourBag ++ g.discard, discard := [] }
  else g

/-- GuiGame.enterManualDistributionPhase (game.ts lines 361-416):
compute the factory count and tiles needed, run the first-round
initialization and the refill step, then build the BagView counts from
ourBag and the handler's empty factories 1..n.  Returns the updated
engine-side fields together with the wired distribution state. -/
def enterManualDistributionPhase (g : GamePhase) : GamePhase × DistState :=
  let numFactories := g.engineFactory.length - 1
  let tilesPerRound := numFactories * 4
  let g1 := initOurBagIfEmpty g
  let g2 := refillFromDiscardIfNeeded g1 tilesPerRound
  (g2,
   { bag := { tileCounts := countTilesInBag g2.ourBag, tilesPlaced := 0 },
     factories := setupDropZones numFactories,
     ourBag := g2.ourBag,
     discard := g2.discard,
     enabled := true })

/-- The total shown to the operator by BagView.create as the available
pool (part_000 line 48). -/
def presentedAvailability (st : DistState) : Nat := sumCounts st.bag.tileCounts

/-- The engine-side state written by applyManualDistribution: the
factory array (index 0 the centre), the tilebag, and the legal-move
set most recently computed. -/
structure Engine where
  factory : List (List Int)
  tilebag : List Int
  availableMoves : List Nat

/-- The forEach of applyManualDistribution step 2 (game.ts lines
443-446): write configuration entry i into engine factory i + 1,
skipping the centre. -/
def writeConfigFrom : List (List Int) → List (List Int) → Nat → List (List Int)
  | factory, [], _ => factory
  | factory, tiles :: rest, i => writeConfigFrom (factory.set (i + 1) tiles) rest (i + 1)

/-- Step 3 of applyManualDistribution (game.ts lines 449-456): for each
placed tile, remove its first occurrence from ourBag if present
(indexOf then splice, a no-op when absent). -/
def removePlacedFromBag (bag : List Int) (config : List (List Int)) : List Int :=
  config.foldl (fun b tiles => tiles.foldl (fun b2 t => b2.erase t) b) bag

/-- GuiGame.applyManualDistribution (game.ts lines 435-488), engine
side: read the snapshot configuration, write it into factories 1..n,
remove the placed tiles from ourBag, replace the engine tilebag with
the result, and recompute the legal moves from the new factory and bag
state (the getMoves call, abstracted as the gm parameter).  Returns the
new engine state and the new ourBag. -/
def applyManualDistribution (gm : List (List Int) → List Int → List Nat)
    (e : Engine) (st : DistState) : Engine × List Int :=
  let config := getFactoryConfiguration st.factories
  let factory2 := writeConfigFrom e.factory config 0
  let ourBag2 := removePlacedFromBag st.ourBag config
  ({ factory := factory2, tilebag := ourBag2, availableMoves := gm factory2 ourBag2 },
   ourBag2)

/-! ## Derived notions used by the claims -/

/-- The conserved quantity of the conservation claim: remaining supply
counts, plus tiles placed across all factories, plus the discard pile
length. -/
def sigma (st : DistState) : Nat :=
  sumCounts st.bag.tileCounts + totalPlaced st.factories + st.discard.length

/-- Well-formedness of a distribution state: every tile sitting in a
factory is a color 0..4.  This holds on entry (factories start empty)
and is preserved by the handlers, whose payload guard admits only such
colors. -/
def WfState (st : DistState) : Prop :=
  ∀ f ∈ st.factories, ∀ t ∈ f.tiles, 0 ≤ t ∧ t ≤ 4

/-- The drag-start guard of BagView.handleDragStart (part_000 lines
114-123): a drag carrying a given color can only start while the count
of that color is positive.  A drop event is legal when its payload, if
it parses to a color at all, has positive remaining supply; removals
are always legal. -/
def legalOp (st : DistState) (op : DistOp) : Bool :=
  match op with
  | DistOp.drop _ p =>
    match parseColor p with
    | none => true
    | some c => decide (0 < st.bag.tileCounts c.toNat)
  | DistOp.click _ _ => true

/-- A run of operator events in which every drop satisfies the
drag-start guard at the state where it happens. -/
inductive GuardedRun : DistState → List DistOp → DistState → Prop
  | nil (st : DistState) : GuardedRun st [] st
  | cons (st : DistState) (op : DistOp) (ops : List DistOp) (st' : DistState) :
      legalOp st op = true → GuardedRun (stepOp st op) ops st' →
      GuardedRun st (op :: ops) st'

/-! ## Helper lemmas -/

theorem parseColor_bounds {p : Option String} {c : Int} (h : parseColor p = some c) :
    0 ≤ c ∧ c ≤ 4 := by
  unfold parseColor at h
  split at h
  · simp at h
  · split at h
    · simp at h
    · split at h
      · simp at h
      · split at h
        · simp at h
        · rename_i hr
          push_neg at hr
          simp only [Option.some.injEq] at h
          omega

theorem findFactory_cons (f : FactoryState) (rest : List FactoryState) (id : Nat) :
    findFactory (f :: rest) id = if f.factoryId = id then some f else findFactory rest id := by
  by_cases h : f.factoryId = id
  · simp [findFactory, List.find?_cons_of_pos, h]
  · simp [findFactory, List.find?_cons_of_neg, h]

theorem findFactory_mem {fs : List FactoryState} {id : Nat} {f : FactoryState}
    (h : findFactory fs id = some f) : f ∈ fs :=
  List.mem_of_find?_eq_some h

theorem addTile_false_eq (fs : List FactoryState) (id : Nat) (c : Int)
    (h : (addTileToFactory fs id c).1 = false) : (addTileToFactory fs id c).2 = fs := by
  induction fs with
  | nil => rfl
  | cons f rest ih =>
    by_cases hid : f.factoryId = id
    · by_cases hlen : 4 ≤ f.tiles.length
      · simp [addTileToFactory, hid, hlen]
      · simp [addTileToFactory, hid, hlen] at h
    · simp only [addTileToFactory, if_neg hid] at h ⊢
      rw [ih h]

theorem totalPlaced_addTile_true (fs : List FactoryState) (id : Nat) (c : Int)
    (h : (addTileToFactory fs id c).1 = true) :
    totalPlaced (addTileToFactory fs id c).2 = totalPlaced fs + 1 := by
  induction fs with
  | nil => simp [addTileToFactory] at h
  | cons f rest ih =>
    by_cases hid : f.factoryId = id
    · by_cases hlen : 4 ≤ f.tiles.length
      · simp [addTileToFactory, hid, hlen] at h
      · simp [addTileToFactory, hid, hlen, totalPlaced]
        omega
    · simp only [addTileToFactory, if_neg hid] at h ⊢
      simp only [totalPlaced, List.map_cons, List.sum_cons] at ih ⊢
      rw [ih h]
      omega

theorem addTile_tiles_pred (P : Int → Prop) (fs : List FactoryState) (id : Nat) (c : Int)
    (hfs : ∀ f ∈ fs, ∀ t ∈ f.tiles, P t) (hc : P c) :
    ∀ f ∈ (addTileToFactory fs id c).2, ∀ t ∈ f.tiles, P t := by
  induction fs with
  | nil => simp [addTileToFactory]
  | cons f rest ih =>
    have hf := hfs f (List.mem_cons_self f rest)
    have hrest : ∀ g ∈ rest, ∀ t ∈ g.tiles, P t :=
      fun g hg => hfs g (List.mem_cons_of_mem f hg)
    by_cases hid : f.factoryId = id
    · by_cases hlen : 4 ≤ f.tiles.length
      · simpa [addTileToFactory, hid, hlen] using hfs
      · simp only [addTileToFactory, if_pos hid, if_neg hlen]
        intro g hg t ht
        rcases List.mem_cons.mp hg with hg | hg
        · subst hg
          rcases List.mem_append.mp ht with ht | ht
          · exact hf t ht
          · rw [List.mem_singleton.mp ht]; exact hc
        · exact hrest g hg t ht
    · simp only [addTileToFactory, if_neg hid]
      intro g hg t ht
      rcases List.mem_cons.mp hg with hg | hg
      · subst hg; exact hf t ht
      · exact ih hrest g hg t ht

theorem addTile_len_le (fs : List FactoryState) (id : Nat) (c : Int)
    (hfs : ∀ f ∈ fs, f.tiles.length ≤ 4) :
    ∀ f ∈ (addTileToFactory fs id c).2, f.tiles.length ≤ 4 := by
  induction fs with
  | nil => simp [addTileToFactory]
  | cons f rest ih =>
    have hf := hfs f (List.mem_cons_self f rest)
    have hrest : ∀ g ∈ rest, g.tiles.length ≤ 4 :=
      fun g hg => hfs g (List.mem_cons_of_mem f hg)
    by_cases hid : f.factoryId = id
    · by_cases hlen : 4 ≤ f.tiles.length
      · simpa [addTileToFactory, hid, hlen] using hfs
      · simp only [addTileToFactory, if_pos hid, if_neg hlen]
        intro g hg
        rcases List.mem_cons.mp hg with hg | hg
        · subst hg; simp; omega
        · exact hrest g hg
    · simp only [addTileToFactory, if_neg hid]
      intro g hg
      rcases List.mem_cons.mp hg with hg | hg
      · subst hg; exact hf
      · exact ih hrest g hg

theorem removeTile_none_eq (fs : List FactoryState) (id : Nat) (slot : Nat)
    (h : (removeTileFromFactory fs id slot).1 = none) :
    (removeTileFromFactory fs id slot).2 = fs := by
  induction fs with
  | nil => rfl
  | cons f rest ih =>
    by_cases hid : f.factoryId = id
    · by_cases hslot : slot < f.tiles.length
      · simp only [removeTileFromFactory, if_pos hid, if_pos hslot] at h
        rw [List.getElem?_eq_getElem hslot] at h
        exact absurd h (by simp)
      · simp [removeTileFromFactory, hid, hslot]
    · simp only [removeTileFromFactory, if_neg hid] at h ⊢
      rw [ih h]

theorem removeTile_found (fs : List FactoryState) (id : Nat) (slot : Nat) (f : FactoryState)
    (hf : findFactory fs id = some f) (hslot : slot < f.tiles.length) :
    (removeTileFromFactory fs id slot).1 = f.tiles[slot]? ∧
    totalPlaced (removeTileFromFactory fs id slot).2 + 1 = totalPlaced fs := by
  induction fs with
  | nil => simp [findFactory] at hf
  | cons g rest ih =>
    rw [findFactory_cons] at hf
    by_cases hid : g.factoryId = id
    · rw [if_pos hid] at hf
      have hg : g = f := by simpa using hf
      subst hg
      constructor
      · simp [removeTileFromFactory, hid, hslot]
      · simp only [removeTileFromFactory, if_pos hid, if_pos hslot, totalPlaced,
          List.map_cons, List.sum_cons]
        rw [List.length_eraseIdx_of_lt hslot]
        omega
    · rw [if_neg hid] at hf
      have hih := ih hf
      constructor
      · simpa [removeTileFromFactory, hid] using hih.1
      · have h2 := hih.2
        simp only [removeTileFromFactory, if_neg hid, totalPlaced, List.map_cons,
          List.sum_cons] at h2 ⊢
        omega

theorem removeTile_tiles_pred (P : Int → Prop) (fs : List FactoryState) (id : Nat) (slot : Nat)
    (hfs : ∀ f ∈ fs, ∀ t ∈ f.tiles, P t) :
    ∀ f ∈ (removeTileFromFactory fs id slot).2, ∀ t ∈ f.tiles, P t := by
  induction fs with
  | nil => simp [removeTileFromFactory]
  | cons f rest ih =>
    have hf := hfs f (List.mem_cons_self f rest)
    have hrest : ∀ g ∈ rest, ∀ t ∈ g.tiles, P t :=
      fun g hg => hfs g (List.mem_cons_of_mem f hg)
    by_cases hid : f.factoryId = id
    · by_cases hslot : slot < f.tiles.length
      · simp only [removeTileFromFactory, if_pos hid, if_pos hslot]
        intro g hg t ht
        rcases List.mem_cons.mp hg with hg | hg
        · subst hg
          exact hf t (List.mem_of_mem_eraseIdx ht)
        · exact hrest g hg t ht
      · simpa [removeTileFromFactory, hid, hslot] using hfs
    · simp only [removeTileFromFactory, if_neg hid]
      intro g hg t ht
      rcases List.mem_cons.mp hg with hg | hg
      · subst hg; exact hf t ht
      · exact ih hrest g hg t ht

theorem removeTile_len_le (fs : List FactoryState) (id : Nat) (slot : Nat)
    (hfs : ∀ f ∈ fs, f.tiles.length ≤ 4) :
    ∀ f ∈ (removeTileFromFactory fs id slot).2, f.tiles.length ≤ 4 := by
  induction fs with
  | nil => simp [removeTileFromFactory]
  | cons f rest ih =>
    have hf := hfs f (List.mem_cons_self f rest)
    have hrest : ∀ g ∈ rest, g.tiles.length ≤ 4 :=
      fun g hg => hfs g (List.mem_cons_of_mem f hg)
    by_cases hid : f.factoryId = id
    · by_cases hslot : slot < f.tiles.length
      · simp only [removeTileFromFactory, if_pos hid, if_pos hslot]
        intro g hg
        rcases List.mem_cons.mp hg with hg | hg
        · subst hg
          simp only
          exact le_trans (List.length_eraseIdx_le _ _) hf
        · exact hrest g hg
      · simpa [removeTileFromFactory, hid, hslot] using hfs
    · simp only [removeTileFromFactory, if_neg hid]
      intro g hg
      rcases List.mem_cons.mp hg with hg | hg
      · subst hg; exact hf
      · exact ih hrest g hg

theorem sumCounts_setCount_sub (f : Nat → Nat) (c : Nat) (hc : c ≤ 4) (hpos : 0 < f c) :
    sumCounts (setCount f c (f c - 1)) + 1 = sumCounts f := by
  interval_cases c <;> simp [sumCounts, setCount] <;> omega

theorem sumCounts_setCount_add (f : Nat → Nat) (c : Nat) (hc : c ≤ 4) :
    sumCounts (setCount f c (f c + 1)) = sumCounts f + 1 := by
  interval_cases c <;> simp [sumCounts, setCount] <;> omega

theorem eraseIdx_concat (l : List Int) (a : Int) : (l ++ [a]).eraseIdx l.length = l := by
  rw [List.eraseIdx_append_of_length_le (Nat.le_refl _)]
  simp

theorem tileReturned_tilePlaced (b : BagState) (c : Int) (h : 0 < b.tileCounts c.toNat) :
    tileReturned (tilePlaced b c) c = b := by
  cases b with
  | mk tc tp =>
    simp only [tilePlaced] at h ⊢
    rw [if_pos h]
    simp only [tileReturned, BagState.mk.injEq]
    constructor
    · funext j
      by_cases hj : j = c.toNat
      · subst hj; simp [setCount]; omega
      · simp [setCount, hj]
    · omega

theorem addTile_full_eq (fs : List FactoryState) (id : Nat) (c : Int) (f : FactoryState)
    (hf : findFactory fs id = some f) (hfull : 4 ≤ f.tiles.length) :
    addTileToFactory fs id c = (false, fs) := by
  induction fs with
  | nil => simp [findFactory] at hf
  | cons g rest ih =>
    rw [findFactory_cons] at hf
    by_cases hid : g.factoryId = id
    · rw [if_pos hid] at hf
      have hg : g = f := by simpa using hf
      subst hg
      simp [addTileToFactory, hid, hfull]
    · rw [if_neg hid] at hf
      simp [addTileToFactory, hid, ih hf]

theorem addTile_roundtrip (fs : List FactoryState) (id : Nat) (c : Int) (f : FactoryState)
    (hf : findFactory fs id = some f) (hlen : f.tiles.length < 4) :
    (addTileToFactory fs id c).1 = true ∧
    findFactory (addTileToFactory fs id c).2 id = some { f with tiles := f.tiles ++ [c] } ∧
    removeTileFromFactory (addTileToFactory fs id c).2 id f.tiles.length = (some c, fs) := by
  induction fs with
  | nil => simp [findFactory] at hf
  | cons g rest ih =>
    rw [findFactory_cons] at hf
    by_cases hid : g.factoryId = id
    · rw [if_pos hid] at hf
      have hg : g = f := by simpa using hf
      subst hg
      have hnot : ¬ 4 ≤ g.tiles.length := by omega
      have hsl : g.tiles.length < (g.tiles ++ [c]).length := by simp
      have hstep : (addTileToFactory (g :: rest) id c).2 =
          { g with tiles := g.tiles ++ [c] } :: rest := by
        simp [addTileToFactory, hid, hnot]
      refine ⟨by simp [addTileToFactory, hid, hnot], ?_, ?_⟩
      · rw [hstep, findFactory_cons,
          if_pos (show ({ g with tiles := g.tiles ++ [c] } : FactoryState).factoryId = id from hid)]
      · rw [hstep]
        simp only [removeTileFromFactory]
        rw [if_pos (show ({ g with tiles := g.tiles ++ [c] } : FactoryState).factoryId = id from hid),
          if_pos (show g.tiles.length <
            ({ g with tiles := g.tiles ++ [c] } : FactoryState).tiles.length from hsl),
          List.getElem?_concat_length, eraseIdx_concat]
    · rw [if_neg hid] at hf
      obtain ⟨h1, h2, h3⟩ := ih hf
      refine ⟨by simpa [addTileToFactory, hid] using h1, ?_, ?_⟩
      · simp only [addTileToFactory, if_neg hid]
        rw [findFactory_cons, if_neg hid]
        exact h2
      · simp only [addTileToFactory, if_neg hid, removeTileFromFactory]
        simp [hid, h3]

theorem handleDrop_disabled (st : DistState) (fid : Nat) (p : Option String)
    (hen : st.enabled = false) : handleDrop st fid p = (st, none) := by
  simp [handleDrop, hen]

theorem handleDrop_badPayload (st : DistState) (fid : Nat) (p : Option String)
    (hp : parseColor p = none) : handleDrop st fid p = (st, none) := by
  by_cases hen : st.enabled = false <;> simp [handleDrop, hen, hp]

theorem handleDrop_placeFail (st : DistState) (fid : Nat) (p : Option String) (c : Int)
    (hen : st.enabled = true) (hp : parseColor p = some c)
    (hf : (addTileToFactory st.factories fid c).1 = false) :
    handleDrop st fid p = (st, none) := by
  simp [handleDrop, hen, hp, hf]

theorem handleDrop_placeOk (st : DistState) (fid : Nat) (p : Option String) (c : Int)
    (hen : st.enabled = true) (hp : parseColor p = some c)
    (hf : (addTileToFactory st.factories fid c).1 = true) :
    handleDrop st fid p =
      ({ st with
          factories := (addTileToFactory st.factories fid c).2,
          bag := tilePlaced st.bag c },
       some (fid, c)) := by
  simp [handleDrop, hen, hp, hf]

theorem handleTileClick_disabled (st : DistState) (fid slot : Nat)
    (hen : st.enabled = false) : handleTileClick st fid slot = (st, none) := by
  simp [handleTileClick, hen]

theorem handleTileClick_nofind (st : DistState) (fid slot : Nat)
    (hff : findFactory st.factories fid = none) : handleTileClick st fid slot = (st, none) := by
  by_cases hen : st.enabled = false <;> simp [handleTileClick, hen, hff]

theorem handleTileClick_oob (st : DistState) (fid slot : Nat) (f : FactoryState)
    (hff : findFactory st.factories fid = some f) (hs : ¬ slot < f.tiles.length) :
    handleTileClick st fid slot = (st, none) := by
  by_cases hen : st.enabled = false <;> simp [handleTileClick, hen, hff, hs]

theorem handleTileClick_ok (st : DistState) (fid slot : Nat) (f : FactoryState)
    (hen : st.enabled = true) (hff : findFactory st.factories fid = some f)
    (hs : slot < f.tiles.length) :
    handleTileClick st fid slot =
      ({ st with
          factories := (removeTileFromFactory st.factories fid slot).2,
          bag := tileReturned st.bag (f.tiles.getD slot (-1)) },
       some (fid, f.tiles.getD slot (-1))) := by
  simp [handleTileClick, hen, hff, hs]

theorem sigma_stepOp (st : DistState) (op : DistOp)
    (hwf : WfState st) (hleg : legalOp st op = true) :
    sigma (stepOp st op) = sigma st ∧ WfState (stepOp st op) := by
  cases op with
  | drop fid p =>
    by_cases hen : st.enabled = false
    · simp only [stepOp]
      rw [handleDrop_disabled st fid p hen]
      exact ⟨rfl, hwf⟩
    · have hen2 : st.enabled = true := by simpa using hen
      cases hp : parseColor p with
      | none =>
        simp only [stepOp]
        rw [handleDrop_badPayload st fid p hp]
        exact ⟨rfl, hwf⟩
      | some c =>
        have hbound := parseColor_bounds hp
        have hcnt : 0 < st.bag.tileCounts c.toNat := by
          simp only [legalOp, hp, decide_eq_true_eq] at hleg
          exact hleg
        cases hadd : (addTileToFactory st.factories fid c).1 with
        | false =>
          simp only [stepOp]
          rw [handleDrop_placeFail st fid p c hen2 hp hadd]
          exact ⟨rfl, hwf⟩
        | true =>
          simp only [stepOp]
          rw [handleDrop_placeOk st fid p c hen2 hp hadd]
          constructor
          · simp only [sigma]
            rw [totalPlaced_addTile_true _ _ _ hadd]
            have hs := sumCounts_setCount_sub st.bag.tileCounts c.toNat (by omega) hcnt
            simp only [tilePlaced, if_pos hcnt]
            omega
          · intro g hg t ht
            exact addTile_tiles_pred (fun t => 0 ≤ t ∧ t ≤ 4) st.factories fid c hwf hbound g hg t ht
  | click fid slot =>
    by_cases hen : st.enabled = false
    · simp only [stepOp]
      rw [handleTileClick_disabled st fid slot hen]
      exact ⟨rfl, hwf⟩
    · have hen2 : st.enabled = true := by simpa using hen
      cases hff : findFactory st.factories fid with
      | none =>
        simp only [stepOp]
        rw [handleTileClick_nofind st fid slot hff]
        exact ⟨rfl, hwf⟩
      | some f =>
        by_cases hs : slot < f.tiles.length
        · simp only [stepOp]
          rw [handleTileClick_ok st fid slot f hen2 hff hs]
          have hmem : f.tiles.getD slot (-1) ∈ f.tiles := by
            rw [List.getD_eq_getElem?_getD, List.getElem?_eq_getElem hs, Option.getD_some]
            exact List.getElem_mem hs
          have hcb := hwf f (findFactory_mem hff) _ hmem
          have hrem := removeTile_found st.factories fid slot f hff hs
          constructor
          · simp only [sigma]
            have ht := hrem.2
            have hsc := sumCounts_setCount_add st.bag.tileCounts (f.tiles.getD slot (-1)).toNat
              (by omega)
            simp only [tileReturned]
            omega
          · intro g hg t htg
            exact removeTile_tiles_pred (fun t => 0 ≤ t ∧ t ≤ 4) st.factories fid slot hwf g hg t htg
        · simp only [stepOp]
          rw [handleTileClick_oob st fid slot f hff hs]
          exact ⟨rfl, hwf⟩

theorem lenle_stepOp (st : DistState) (op : DistOp)
    (h : ∀ f ∈ st.factories, f.tiles.length ≤ 4) :
    ∀ f ∈ (stepOp st op).factories, f.tiles.length ≤ 4 := by
  cases op with
  | drop fid p =>
    by_cases hen : st.enabled = false
    · simp only [stepOp]
      rw [handleDrop_disabled st fid p hen]
      exact h
    · have hen2 : st.enabled = true := by simpa using hen
      cases hp : parseColor p with
      | none =>
        simp only [stepOp]
        rw [handleDrop_badPayload st fid p hp]
        exact h
      | some c =>
        cases hadd : (addTileToFactory st.factories fid c).1 with
        | false =>
          simp only [stepOp]
          rw [handleDrop_placeFail st fid p c hen2 hp hadd]
          exact h
        | true =>
          simp only [stepOp]
          rw [handleDrop_placeOk st fid p c hen2 hp hadd]
          exact addTile_len_le st.factories fid c h
  | click fid slot =>
    by_cases hen : st.enabled = false
    · simp only [stepOp]
      rw [handleTileClick_disabled st fid slot hen]
      exact h
    · have hen2 : st.enabled = true := by simpa using hen
      cases hff : findFactory st.factories fid with
      | none =>
        simp only [stepOp]
        rw [handleTileClick_nofind st fid slot hff]
        exact h
      | some f =>
        by_cases hs : slot < f.tiles.length
        · simp only [stepOp]
          rw [handleTileClick_ok st fid slot f hen2 hff hs]
          exact removeTile_len_le st.factories fid slot h
        · simp only [stepOp]
          rw [handleTileClick_oob st fid slot f hff hs]
          exact h

theorem sumCounts_countTilesInBag (l : List Int) (h : ∀ t ∈ l, 0 ≤ t ∧ t ≤ 4) :
    sumCounts (countTilesInBag l) = l.length := by
  induction l with
  | nil => simp [sumCounts, countTilesInBag]
  | cons x l ih =>
    have hx := h x (List.mem_cons_self x l)
    have hl : ∀ t ∈ l, 0 ≤ t ∧ t ≤ 4 := fun t ht => h t (List.mem_cons_of_mem x ht)
    have ihl := ih hl
    have hxc : x = 0 ∨ x = 1 ∨ x = 2 ∨ x = 3 ∨ x = 4 := by omega
    rcases hxc with rfl | rfl | rfl | rfl | rfl <;>
      simp only [sumCounts, countTilesInBag, List.count_cons, List.length_cons] at ihl ⊢ <;>
      simp at ihl ⊢ <;> omega

theorem parseColor_invalid (p : Option String)
    (h : p = none ∨ p = some "" ∨ (∃ s, p = some s ∧ jsParseInt s = none) ∨
         (∃ s c, p = some s ∧ jsParseInt s = some c ∧ (c < 0 ∨ 4 < c))) :
    parseColor p = none := by
  rcases h with rfl | rfl | ⟨s, rfl, hs⟩ | ⟨s, c, rfl, hs, hc⟩
  · rfl
  · rfl
  · by_cases hse : s = "" <;> simp [parseColor, hse, hs]
  · by_cases hse : s = "" <;> simp [parseColor, hse, hs, hc]

theorem insertAsc_of_le (x : Nat) (l : List Nat) (h : ∀ y ∈ l, x ≤ y) :
    insertAsc x l = x :: l := by
  cases l with
  | nil => rfl
  | cons y rest => simp [insertAsc, h y (List.mem_cons_self y rest)]

theorem sortNat_sorted (l : List Nat) (h : l.Pairwise (fun a b => a ≤ b)) : sortNat l = l := by
  induction l with
  | nil => rfl
  | cons x rest ih =>
    rw [List.pairwise_cons] at h
    show insertAsc x (List.foldr insertAsc [] rest) = x :: rest
    rw [show List.foldr insertAsc [] rest = sortNat rest from rfl, ih h.2]
    exact insertAsc_of_le x rest h.1

theorem pairwise_le_range' (s n : Nat) : (List.range' s n).Pairwise (fun a b => a ≤ b) := by
  induction n generalizing s with
  | zero => exact List.Pairwise.nil
  | succ n ih =>
    rw [List.range'_succ]
    refine List.Pairwise.cons ?_ (ih (s + 1))
    intro y hy
    rw [List.mem_range'] at hy
    obtain ⟨i, hi, rfl⟩ := hy
    omega

theorem filterMap_find_ids (fs : List FactoryState) (s : Nat)
    (h : fs.map (fun f => f.factoryId) = List.range' s fs.length) :
    (List.range' s fs.length).filterMap (fun id => (findFactory fs id).map (fun f => f.tiles))
      = fs.map (fun f => f.tiles) := by
  induction fs generalizing s with
  | nil => rfl
  | cons f rest ih =>
    simp only [List.map_cons, List.length_cons] at h ⊢
    rw [List.range'_succ] at h ⊢
    injection h with h1 h2
    rw [List.filterMap_cons]
    rw [findFactory_cons, if_pos h1]
    simp only [Option.map_some']
    have hcong : ∀ id ∈ List.range' (s + 1) rest.length,
        (findFactory (f :: rest) id).map (fun f => f.tiles)
          = (findFactory rest id).map (fun f => f.tiles) := by
      intro id hid
      rw [List.mem_range'] at hid
      obtain ⟨i, hi, rfl⟩ := hid
      rw [findFactory_cons, if_neg (by rw [h1]; omega)]
    rw [List.filterMap_congr hcong, ih (s + 1) h2]

theorem getConfig_of_ids (fs : List FactoryState)
    (h : fs.map (fun f => f.factoryId) = List.range' 1 fs.length) :
    getFactoryConfiguration fs = fs.map (fun f => f.tiles) := by
  unfold getFactoryConfiguration
  rw [h, sortNat_sorted _ (pairwise_le_range' 1 fs.length)]
  exact filterMap_find_ids fs 1 h

theorem writeConfigFrom_get_lt (config : List (List Int)) (F : List (List Int)) (i j : Nat)
    (hj : j < i + 1) : (writeConfigFrom F config i)[j]? = F[j]? := by
  induction config generalizing F i with
  | nil => rfl
  | cons t rest ih =>
    show (writeConfigFrom (F.set (i + 1) t) rest (i + 1))[j]? = F[j]?
    rw [ih (F.set (i + 1) t) (i + 1) (by omega)]
    exact List.getElem?_set_ne (by omega)

theorem writeConfigFrom_get (config : List (List Int)) (F : List (List Int)) (i k : Nat)
    (hk : k < config.length) (hlen : i + 1 + config.length ≤ F.length) :
    (writeConfigFrom F config i)[i + 1 + k]? = config[k]? := by
  induction config generalizing F i k with
  | nil => simp at hk
  | cons t rest ih =>
    simp only [List.length_cons] at hlen
    have hlhs : writeConfigFrom F (t :: rest) i = writeConfigFrom (F.set (i + 1) t) rest (i + 1) :=
      rfl
    cases k with
    | zero =>
      rw [List.getElem?_cons_zero, hlhs, show i + 1 + 0 = i + 1 from rfl]
      rw [writeConfigFrom_get_lt rest (F.set (i + 1) t) (i + 1) (i + 1) (by omega)]
      exact List.getElem?_set_self (by omega)
    | succ k2 =>
      rw [List.getElem?_cons_succ, hlhs, show i + 1 + (k2 + 1) = (i + 1) + 1 + k2 from by omega]
      exact ih (F.set (i + 1) t) (i + 1) k2 (by simpa using hk) (by simp; omega)

theorem count_foldl_erase (c : Int) (ts : List Int) (b : List Int) :
    (ts.foldl (fun b2 t => b2.erase t) b).count c = b.count c - ts.count c := by
  induction ts generalizing b with
  | nil => simp
  | cons t rest ih =>
    simp only [List.foldl_cons, List.count_cons]
    rw [ih (b.erase t), List.count_erase]
    by_cases h : t = c
    · simp [h]
      omega
    · simp [h]

theorem count_removePlacedFromBag (c : Int) (bag : List Int) (config : List (List Int)) :
    (removePlacedFromBag bag config).count c = bag.count c - (config.flatten).count c := by
  induction config generalizing bag with
  | nil => simp [removePlacedFromBag]
  | cons ts rest ih =>
    simp only [removePlacedFromBag, List.foldl_cons] at ih ⊢
    rw [ih (ts.foldl (fun b2 t => b2.erase t) bag), count_foldl_erase]
    simp only [List.flatten_cons, List.count_append]
    omega

theorem sublist_foldl_erase (ts : List Int) (b : List Int) :
    (ts.foldl (fun b2 t => b2.erase t) b).Sublist b := by
  induction ts generalizing b with
  | nil => exact List.Sublist.refl b
  | cons t rest ih =>
    simp only [List.foldl_cons]
    exact (ih (b.erase t)).trans (List.erase_sublist t b)

theorem removePlaced_sublist (bag : List Int) (config : List (List Int)) :
    (removePlacedFromBag bag config).Sublist bag := by
  induction config generalizing bag with
  | nil => exact List.Sublist.refl bag
  | cons ts rest ih =>
    simp only [removePlacedFromBag, List.foldl_cons] at ih ⊢
    exact (ih (ts.foldl (fun b2 t => b2.erase t) bag)).trans (sublist_foldl_erase ts bag)

/-! ## Claim theorems -/

/-- Claim C1, counterexample to the claim as stated: conservation of
the sum of supply counts, tiles placed across factories, and discard
length does not hold for every sequence of drop events.  Entering the
distribution phase with the one-tile bag holding a single tile of color
0 gives conserved sum 1, yet a single drop event carrying color 1,
whose supply count is zero, is accepted by addTileToFactory while
BagView.tilePlaced silently does nothing, raising the sum to 2. -/
theorem claim_C1_counterexample :
    sigma (enterManualDistributionPhase ⟨[[], []], [], [0], []⟩).2 = 1 ∧
    sigma (stepOp (enterManualDistributionPhase ⟨[[], []], [], [0], []⟩).2
      (DistOp.drop 1 (some "1"))) = 2 := by
  constructor <;> decide

/-- Claim C1 (amended): for every sequence of drop and click-to-remove
events during a distribution phase in which every drop whose payload
parses to a color satisfies the drag-start guard (positive remaining
supply for that color at the moment of the drop), the sum of the supply
counts, plus the tiles placed across all factories, plus the discard
pile length, is constant.  The well-formedness hypothesis (factory
tiles are colors 0..4) holds at phase entry, where factories are empty,
and is preserved by the run itself. -/
theorem claim_C1_conservation (st st' : DistState) (ops : List DistOp)
    (hrun : GuardedRun st ops st') (hwf : WfState st) :
    sigma st' = sigma st := by
  induction hrun with
  | nil s => rfl
  | cons s op ops s' hleg hrest ih =>
    have h := sigma_stepOp s op hwf hleg
    rw [ih h.2, h.1]

/-- Witness for claim C1: a concrete guarded one-drop run from an
entered state with two tiles of color 0 conserves the sum. -/
theorem claim_C1_conservation_witness :
    sigma (stepOp (⟨⟨countTilesInBag [0, 0], 0⟩, [⟨1, []⟩], [0, 0], [], true⟩ : DistState)
      (DistOp.drop 1 (some "0"))) =
    sigma (⟨⟨countTilesInBag [0, 0], 0⟩, [⟨1, []⟩], [0, 0], [], true⟩ : DistState) :=
  claim_C1_conservation _ _ [DistOp.drop 1 (some "0")]
    (GuardedRun.cons _ _ _ _ (by decide) (GuardedRun.nil _))
    (by intro f hf t ht; simp at hf; subst hf; simp at ht)

/-- Claim C3, counterexample to the claim as stated: the controller
does not call the supply-side take first.  In a state whose supply
counts are all zero, a drop of color 2 on the empty factory 1 is, per
the claim, a failed take and hence a no-op leaving all components
unchanged; the code instead runs addTileToFactory first, which
succeeds, so the factory table changes. -/
theorem claim_C3_counterexample :
    (handleDrop (⟨⟨countTilesInBag [], 0⟩, [⟨1, []⟩], [], [], true⟩ : DistState) 1
      (some "2")).1.factories ≠
    (⟨⟨countTilesInBag [], 0⟩, [⟨1, []⟩], [], [], true⟩ : DistState).factories := by
  decide

/-- Claim C3 (amended): for every placement attempt, a drop carrying an
invalid payload is a no-op that leaves everything unchanged and fires
no callback; when the payload parses to a color, the handler calls
PlacementSession place (addTileToFactory) first, and only if place
succeeds is the supply decrement (BagView.tilePlaced) invoked, so
there is no rollback path; every drop rejected by place is likewise a
no-op with no callback, and the supply state can change only when
place succeeded. -/
theorem claim_C3_place_then_take (st : DistState) (fid : Nat) (p : Option String)
    (hen : st.enabled = true) :
    (parseColor p = none → handleDrop st fid p = (st, none)) ∧
    ∀ c : Int, parseColor p = some c →
      ((addTileToFactory st.factories fid c).1 = false → handleDrop st fid p = (st, none)) ∧
      ((addTileToFactory st.factories fid c).1 = true →
        handleDrop st fid p =
          ({ st with
              factories := (addTileToFactory st.factories fid c).2,
              bag := tilePlaced st.bag c },
           some (fid, c))) ∧
      ((handleDrop st fid p).1.bag ≠ st.bag → (addTileToFactory st.factories fid c).1 = true) := by
  refine ⟨fun hp => handleDrop_badPayload st fid p hp, fun c hp => ?_⟩
  refine ⟨fun hf => handleDrop_placeFail st fid p c hen hp hf,
          fun ht => handleDrop_placeOk st fid p c hen hp ht, fun hb => ?_⟩
  cases hadd : (addTileToFactory st.factories fid c).1 with
  | true => rfl
  | false =>
    rw [handleDrop_placeFail st fid p c hen hp hadd] at hb
    exact absurd rfl hb

/-- Witness for claim C3: the amended protocol at a concrete state with
one tile of color 2, one empty factory, and the payload string 2. -/
theorem claim_C3_place_then_take_witness :
    (parseColor (some "2") = none →
      handleDrop (⟨⟨countTilesInBag [2], 0⟩, [⟨1, []⟩], [2], [], true⟩ : DistState) 1 (some "2") =
        ((⟨⟨countTilesInBag [2], 0⟩, [⟨1, []⟩], [2], [], true⟩ : DistState), none)) ∧
    ∀ c : Int, parseColor (some "2") = some c →
      ((addTileToFactory [⟨1, []⟩] 1 c).1 = false →
        handleDrop (⟨⟨countTilesInBag [2], 0⟩, [⟨1, []⟩], [2], [], true⟩ : DistState) 1
          (some "2") =
          ((⟨⟨countTilesInBag [2], 0⟩, [⟨1, []⟩], [2], [], true⟩ : DistState), none)) ∧
      ((addTileToFactory [⟨1, []⟩] 1 c).1 = true →
        handleDrop (⟨⟨countTilesInBag [2], 0⟩, [⟨1, []⟩], [2], [], true⟩ : DistState) 1
          (some "2") =
          ({ (⟨⟨countTilesInBag [2], 0⟩, [⟨1, []⟩], [2], [], true⟩ : DistState) with
              factories := (addTileToFactory [⟨1, []⟩] 1 c).2,
              bag := tilePlaced ⟨countTilesInBag [2], 0⟩ c },
           some (1, c))) ∧
      ((handleDrop (⟨⟨countTilesInBag [2], 0⟩, [⟨1, []⟩], [2], [], true⟩ : DistState) 1
          (some "2")).1.bag ≠ (⟨countTilesInBag [2], 0⟩ : BagState) →
        (addTileToFactory [⟨1, []⟩] 1 c).1 = true) :=
  claim_C3_place_then_take (⟨⟨countTilesInBag [2], 0⟩, [⟨1, []⟩], [2], [], true⟩ : DistState)
    1 (some "2") rfl

/-- Claim C4: isComplete returns true exactly when the total number of
placed tiles reaches the minimum of the available total and four times
the number of factories; in particular, with five factories (capacity
20) and only 18 tiles available, completion holds at 18 placed tiles
and not before. -/
theorem claim_C4_isComplete (fs : List FactoryState) (t : Nat) :
    (isComplete fs t = true ↔ min t (fs.length * 4) ≤ totalPlaced fs) ∧
    isComplete [(⟨1, [0, 0, 0, 0]⟩ : FactoryState), ⟨2, [0, 0, 0, 0]⟩, ⟨3, [0, 0, 0, 0]⟩,
      ⟨4, [0, 0, 0, 0]⟩, ⟨5, [0, 0]⟩] 18 = true ∧
    isComplete [(⟨1, [0, 0, 0, 0]⟩ : FactoryState), ⟨2, [0, 0, 0, 0]⟩, ⟨3, [0, 0, 0, 0]⟩,
      ⟨4, [0, 0, 0, 0]⟩, ⟨5, [0]⟩] 18 = false := by
  refine ⟨?_, by decide, by decide⟩
  simp [isComplete]

/-- Claim C5: from any state where the drop payload parses to color c,
factory fid exists with fewer than four tiles, and the supply count of
c is positive, successfully dropping the tile on fid and then clicking
the slot it landed in (index equal to the old tile count) restores the
entire distribution state, supply counts and factory configuration
alike, to exactly its prior value. -/
theorem claim_C5_roundtrip (st : DistState) (fid : Nat) (p : Option String) (c : Int)
    (f : FactoryState) (hen : st.enabled = true) (hp : parseColor p = some c)
    (hf : findFactory st.factories fid = some f) (hlen : f.tiles.length < 4)
    (hcnt : 0 < st.bag.tileCounts c.toNat) :
    (handleTileClick (handleDrop st fid p).1 fid f.tiles.length).1 = st := by
  obtain ⟨hok, hfind2, hrem⟩ := addTile_roundtrip st.factories fid c f hf hlen
  have hdrop : (handleDrop st fid p).1 =
      { st with
          factories := (addTileToFactory st.factories fid c).2,
          bag := tilePlaced st.bag c } := by
    rw [handleDrop_placeOk st fid p c hen hp hok]
  rw [hdrop]
  have hs2 : f.tiles.length < ({ f with tiles := f.tiles ++ [c] } : FactoryState).tiles.length := by
    simp
  rw [handleTileClick_ok
    { st with
        factories := (addTileToFactory st.factories fid c).2,
        bag := tilePlaced st.bag c }
    fid f.tiles.length { f with tiles := f.tiles ++ [c] } hen hfind2 hs2]
  have hcol : ({ f with tiles := f.tiles ++ [c] } : FactoryState).tiles.getD f.tiles.length (-1)
      = c := by
    show (f.tiles ++ [c]).getD f.tiles.length (-1) = c
    rw [List.getD_eq_getElem?_getD, List.getElem?_concat_length]
    rfl
  have hfac : (removeTileFromFactory (addTileToFactory st.factories fid c).2 fid
      f.tiles.length).2 = st.factories := by
    rw [hrem]
  simp [hcol, hfac, tileReturned_tilePlaced st.bag c hcnt]

/-- Witness for claim C5: placing color 2 on the empty factory 1 and
removing it from slot 0 restores the concrete starting state. -/
theorem claim_C5_roundtrip_witness :
    (handleTileClick
      (handleDrop (⟨⟨countTilesInBag [2], 0⟩, [⟨1, []⟩], [2], [], true⟩ : DistState) 1
        (some "2")).1 1 0).1 =
    (⟨⟨countTilesInBag [2], 0⟩, [⟨1, []⟩], [2], [], true⟩ : DistState) :=
  claim_C5_roundtrip (⟨⟨countTilesInBag [2], 0⟩, [⟨1, []⟩], [2], [], true⟩ : DistState)
    1 (some "2") 2 ⟨1, []⟩ rfl (by decide) (by decide) (by decide) (by decide)

/-- Claim C6: entering a round's distribution phase with a non-empty
bag whose supply total is below the tiles needed this round and a
non-empty discard pile moves the entire discard pile into the supply,
empties the discard, and presents the combined total as availability;
in particular supply 3 plus discard 15 with 20 tiles needed yields
availability 18 and an empty discard. -/
theorem claim_C6_refill (g : GamePhase)
    (hne : g.ourBag ≠ [])
    (hvalid : ∀ t ∈ g.ourBag ++ g.discard, 0 ≤ t ∧ t ≤ 4)
    (hshort : sumCounts (countTilesInBag g.ourBag) < (g.engineFactory.length - 1) * 4)
    (hd : g.discard ≠ []) :
    (enterManualDistributionPhase g).1.ourBag = g.ourBag ++ g.discard ∧
    (enterManualDistributionPhase g).1.discard = [] ∧
    (enterManualDistributionPhase g).2.discard = [] ∧
    presentedAvailability (enterManualDistributionPhase g).2 =
      g.ourBag.length + g.discard.length := by
  have hvb : ∀ t ∈ g.ourBag, 0 ≤ t ∧ t ≤ 4 :=
    fun t ht => hvalid t (List.mem_append_left _ ht)
  have hlen : g.ourBag.length < (g.engineFactory.length - 1) * 4 := by
    rw [← sumCounts_countTilesInBag g.ourBag hvb]
    exact hshort
  have hinit : initOurBagIfEmpty g = g := by
    simp [initOurBagIfEmpty, List.length_eq_zero, hne]
  have hdl : 0 < g.discard.length := by
    cases hdd : g.discard with
    | nil => exact absurd hdd hd
    | cons a l => simp
  have hcond : g.ourBag.length < (g.engineFactory.length - 1) * 4 ∧ 0 < g.discard.length :=
    ⟨hlen, hdl⟩
  have hg2 : refillFromDiscardIfNeeded (initOurBagIfEmpty g) ((g.engineFactory.length - 1) * 4)
      = { g with ourBag := g.ourBag ++ g.discard, discard := [] } := by
    rw [hinit]
    simp only [refillFromDiscardIfNeeded]
    rw [if_pos hcond]
  refine ⟨?_, ?_, ?_, ?_⟩
  · show (refillFromDiscardIfNeeded (initOurBagIfEmpty g)
        ((g.engineFactory.length - 1) * 4)).ourBag = g.ourBag ++ g.discard
    rw [hg2]
  · show (refillFromDiscardIfNeeded (initOurBagIfEmpty g)
        ((g.engineFactory.length - 1) * 4)).discard = []
    rw [hg2]
  · show (refillFromDiscardIfNeeded (initOurBagIfEmpty g)
        ((g.engineFactory.length - 1) * 4)).discard = []
    rw [hg2]
  · show sumCounts (countTilesInBag (refillFromDiscardIfNeeded (initOurBagIfEmpty g)
        ((g.engineFactory.length - 1) * 4)).ourBag) = g.ourBag.length + g.discard.length
    rw [hg2]
    show sumCounts (countTilesInBag (g.ourBag ++ g.discard)) =
      g.ourBag.length + g.discard.length
    rw [sumCounts_countTilesInBag _ hvalid]
    simp

/-- Witness for claim C6: supply of 3 tiles, discard of 15 tiles, five
factories needing 20 tiles, yielding availability 18 and empty
discard. -/
theorem claim_C6_refill_witness :
    (enterManualDistributionPhase
      ⟨[[], [], [], [], [], []], [], [0, 1, 2],
        [3, 3, 3, 3, 3, 3, 3, 3, 3, 3, 3, 3, 3, 3, 3]⟩).1.ourBag =
      [0, 1, 2] ++ [3, 3, 3, 3, 3, 3, 3, 3, 3, 3, 3, 3, 3, 3, 3] ∧
    (enterManualDistributionPhase
      ⟨[[], [], [], [], [], []], [], [0, 1, 2],
        [3, 3, 3, 3, 3, 3, 3, 3, 3, 3, 3, 3, 3, 3, 3]⟩).1.discard = [] ∧
    (enterManualDistributionPhase
      ⟨[[], [], [], [], [], []], [], [0, 1, 2],
        [3, 3, 3, 3, 3, 3, 3, 3, 3, 3, 3, 3, 3, 3, 3]⟩).2.discard = [] ∧
    presentedAvailability (enterManualDistributionPhase
      ⟨[[], [], [], [], [], []], [], [0, 1, 2],
        [3, 3, 3, 3, 3, 3, 3, 3, 3, 3, 3, 3, 3, 3, 3]⟩).2 =
      List.length [0, 1, 2] + List.length [3, 3, 3, 3, 3, 3, 3, 3, 3, 3, 3, 3, 3, 3, 3] :=
  claim_C6_refill
    ⟨[[], [], [], [], [], []], [], [0, 1, 2], [3, 3, 3, 3, 3, 3, 3, 3, 3, 3, 3, 3, 3, 3, 3]⟩
    (by decide) (by decide) (by decide) (by decide)

/-- Claim C7: the supply-side take (BagView.tilePlaced) decrements the
count of the color by one when it is positive, leaving every other
count unchanged, and does nothing at all when the count is zero; and
place (addTileToFactory) on a factory already holding four tiles
reports false and leaves the factory table unchanged.  The source
tilePlaced returns no value; the success and failure of take are
embedded as the two branches of its count guard. -/
theorem claim_C7_rejection (b : BagState) (c : Int) (fs : List FactoryState)
    (id : Nat) (f : FactoryState)
    (hf : findFactory fs id = some f) (hfull : f.tiles.length = 4) :
    (0 < b.tileCounts c.toNat →
      (tilePlaced b c).tileCounts c.toNat = b.tileCounts c.toNat - 1 ∧
      ∀ j, j ≠ c.toNat → (tilePlaced b c).tileCounts j = b.tileCounts j) ∧
    (b.tileCounts c.toNat = 0 → tilePlaced b c = b) ∧
    addTileToFactory fs id c = (false, fs) := by
  refine ⟨?_, ?_, addTile_full_eq fs id c f hf (by omega)⟩
  · intro h
    constructor
    · simp [tilePlaced, if_pos h, setCount]
    · intro j hj
      simp [tilePlaced, if_pos h, setCount, hj]
  · intro h
    simp [tilePlaced, h]

/-- Witness for claim C7: concrete supply holding one tile of color 0
and a full factory of four tiles of color 1. -/
theorem claim_C7_rejection_witness :
    (0 < (⟨countTilesInBag [0], 0⟩ : BagState).tileCounts (0 : Int).toNat →
      (tilePlaced ⟨countTilesInBag [0], 0⟩ 0).tileCounts (0 : Int).toNat =
        (⟨countTilesInBag [0], 0⟩ : BagState).tileCounts (0 : Int).toNat - 1 ∧
      ∀ j, j ≠ (0 : Int).toNat →
        (tilePlaced ⟨countTilesInBag [0], 0⟩ 0).tileCounts j =
          (⟨countTilesInBag [0], 0⟩ : BagState).tileCounts j) ∧
    ((⟨countTilesInBag [0], 0⟩ : BagState).tileCounts (0 : Int).toNat = 0 →
      tilePlaced ⟨countTilesInBag [0], 0⟩ 0 = ⟨countTilesInBag [0], 0⟩) ∧
    addTileToFactory [⟨1, [1, 1, 1, 1]⟩] 1 0 = (false, [⟨1, [1, 1, 1, 1]⟩]) :=
  claim_C7_rejection ⟨countTilesInBag [0], 0⟩ 0 [⟨1, [1, 1, 1, 1]⟩] 1 ⟨1, [1, 1, 1, 1]⟩
    (by decide) (by decide)

/-- Claim C8: under every sequence of drop and click-to-remove events
from a state whose factories all hold at most four tiles (as at phase
entry, where they are empty), every factory's tile list keeps length
between 0 and 4 inclusive. -/
theorem claim_C8_capacity (st : DistState) (ops : List DistOp)
    (hinit : ∀ f ∈ st.factories, f.tiles.length ≤ 4) :
    ∀ f ∈ (runOps st ops).factories, 0 ≤ f.tiles.length ∧ f.tiles.length ≤ 4 := by
  induction ops generalizing st with
  | nil =>
    intro f hf
    exact ⟨Nat.zero_le _, hinit f hf⟩
  | cons op ops ih =>
    intro f hf
    exact ih (stepOp st op) (lenle_stepOp st op hinit) f hf

/-- Witness for claim C8: after one concrete drop the single factory
holds one tile, within the bound. -/
theorem claim_C8_capacity_witness :
    0 ≤ (⟨1, [2]⟩ : FactoryState).tiles.length ∧ (⟨1, [2]⟩ : FactoryState).tiles.length ≤ 4 :=
  claim_C8_capacity (⟨⟨countTilesInBag [2], 0⟩, [⟨1, []⟩], [2], [], true⟩ : DistState)
    [DistOp.drop 1 (some "2")] (by decide) ⟨1, [2]⟩ (by decide)

/-- Claim C9, counterexample to the claim as stated: a second
invocation of the supply initialization is claimed to be treated as a
failure that fails fast; the code's guard (game.ts lines 369-374)
instead silently skips the branch and returns normally with the state
unchanged, as the comparison with the spec-modelled fail-fast operation
shows at a concrete non-empty bag. -/
theorem claim_C9_counterexample :
    initOurBagIfEmpty ⟨[[], []], [], [2], []⟩ = ⟨[[], []], [], [2], []⟩ ∧
    initFromExternalStateFailFast ⟨[[], []], [], [2], []⟩ = Except.error () := by
  constructor <;> rfl

/-- Claim C9 (amended): supply initialization from external state
happens only when our bag is empty; invoking the initialization step
when the bag is non-empty performs no re-initialization and leaves the
whole phase state unchanged, silently, with no failure signal. -/
theorem claim_C9_silent_skip (g : GamePhase) (h : g.ourBag ≠ []) :
    initOurBagIfEmpty g = g := by
  simp [initOurBagIfEmpty, List.length_eq_zero, h]

/-- Witness for claim C9: a concrete phase with a one-tile bag is
untouched by the initialization step. -/
theorem claim_C9_silent_skip_witness :
    initOurBagIfEmpty ⟨[[], []], [], [2], []⟩ = ⟨[[], []], [], [2], []⟩ :=
  claim_C9_silent_skip ⟨[[], []], [], [2], []⟩ (by decide)

/-- Claim C10: every drop event whose payload is absent, empty, fails
to parse (NaN), or parses to a color outside 0..4 leaves the whole
distribution state unchanged and invokes no placement callback. -/
theorem claim_C10_invalid_drop (st : DistState) (fid : Nat) (p : Option String)
    (h : p = none ∨ p = some "" ∨ (∃ s, p = some s ∧ jsParseInt s = none) ∨
         (∃ s c, p = some s ∧ jsParseInt s = some c ∧ (c < 0 ∨ 4 < c))) :
    handleDrop st fid p = (st, none) :=
  handleDrop_badPayload st fid p (parseColor_invalid p h)

/-- Claim C2: after applyManualDistribution, with the handler holding
factories 1..n as setupDropZones creates them, an engine factory array
of length n + 1, and the phase consistency relation between ourBag, the
supply counts, and the placed tiles (which the guarded interaction loop
maintains), the engine factory at every committed id k + 1 equals entry
k of the snapshot configuration (equivalently, the tiles of the factory
with id k + 1, in ascending id order), the centre slot 0 is never
written, the engine bag equals the remaining supply counts as a color
multiset, and the returned engine carries the legal-move set recomputed
from the new factory and bag state before anything else can observe
it. -/
theorem claim_C2_apply_fidelity
    (gm : List (List Int) → List Int → List Nat) (e : Engine) (st : DistState) (n : Nat)
    (hids : st.factories.map (fun f => f.factoryId) = List.range' 1 n)
    (hfac : e.factory.length = n + 1)
    (hcount : ∀ c : Nat, c < 5 →
      st.ourBag.count (c : Int) =
        st.bag.tileCounts c + ((getFactoryConfiguration st.factories).flatten).count (c : Int))
    (hbagv : ∀ t ∈ st.ourBag, 0 ≤ t ∧ t ≤ 4) :
    (∀ k, k < n →
      ((applyManualDistribution gm e st).1.factory)[k + 1]? =
        (st.factories.map (fun f => f.tiles))[k]?) ∧
    ((applyManualDistribution gm e st).1.factory)[0]? = e.factory[0]? ∧
    (∀ c : Nat, c < 5 →
      ((applyManualDistribution gm e st).1.tilebag).count (c : Int) = st.bag.tileCounts c) ∧
    (∀ t ∈ (applyManualDistribution gm e st).1.tilebag, 0 ≤ t ∧ t ≤ 4) ∧
    (applyManualDistribution gm e st).1.availableMoves =
      gm (applyManualDistribution gm e st).1.factory
        (applyManualDistribution gm e st).1.tilebag := by
  have hn : st.factories.length = n := by
    have hh := congrArg List.length hids
    simpa using hh
  have hids2 : st.factories.map (fun f => f.factoryId) = List.range' 1 st.factories.length := by
    rw [hn]
    exact hids
  have hconf : getFactoryConfiguration st.factories = st.factories.map (fun f => f.tiles) :=
    getConfig_of_ids st.factories hids2
  have hclen : (getFactoryConfiguration st.factories).length = n := by
    rw [hconf]
    simp [hn]
  refine ⟨?_, ?_, ?_, ?_, rfl⟩
  · intro k hk
    show (writeConfigFrom e.factory (getFactoryConfiguration st.factories) 0)[k + 1]? =
      (st.factories.map (fun f => f.tiles))[k]?
    rw [show k + 1 = 0 + 1 + k from by omega]
    rw [writeConfigFrom_get (getFactoryConfiguration st.factories) e.factory 0 k
      (by omega) (by omega)]
    rw [hconf]
  · show (writeConfigFrom e.factory (getFactoryConfiguration st.factories) 0)[0]? = e.factory[0]?
    exact writeConfigFrom_get_lt (getFactoryConfiguration st.factories) e.factory 0 0 (by omega)
  · intro c hc
    show (removePlacedFromBag st.ourBag (getFactoryConfiguration st.factories)).count (c : Int) =
      st.bag.tileCounts c
    rw [count_removePlacedFromBag, hcount c hc]
    omega
  · intro t ht
    exact hbagv t ((removePlaced_sublist st.ourBag (getFactoryConfiguration st.factories)).subset ht)

/-- Witness for claim C2: one factory holding a single tile of color 0,
with ourBag holding that tile plus one tile of color 3; the resulting
engine factory 1 carries the snapshot, the centre is untouched, and the
engine bag matches the remaining counts. -/
theorem claim_C2_apply_fidelity_witness :
    (∀ k, k < 1 →
      ((applyManualDistribution (fun _ _ => []) ⟨[[], []], [], []⟩
          (⟨⟨countTilesInBag [3], 0⟩, [⟨1, [0]⟩], [0, 3], [], true⟩ : DistState)).1.factory)[k + 1]? =
        (([⟨1, [0]⟩] : List FactoryState).map (fun f => f.tiles))[k]?) ∧
    ((applyManualDistribution (fun _ _ => []) ⟨[[], []], [], []⟩
        (⟨⟨countTilesInBag [3], 0⟩, [⟨1, [0]⟩], [0, 3], [], true⟩ : DistState)).1.factory)[0]? =
      ([[], []] : List (List Int))[0]? ∧
    (∀ c : Nat, c < 5 →
      ((applyManualDistribution (fun _ _ => []) ⟨[[], []], [], []⟩
          (⟨⟨countTilesInBag [3], 0⟩, [⟨1, [0]⟩], [0, 3], [], true⟩ : DistState)).1.tilebag).count
        (c : Int) = countTilesInBag [3] c) ∧
    (∀ t ∈ (applyManualDistribution (fun _ _ => []) ⟨[[], []], [], []⟩
        (⟨⟨countTilesInBag [3], 0⟩, [⟨1, [0]⟩], [0, 3], [], true⟩ : DistState)).1.tilebag,
      0 ≤ t ∧ t ≤ 4) ∧
    (applyManualDistribution (fun _ _ => []) ⟨[[], []], [], []⟩
        (⟨⟨countTilesInBag [3], 0⟩, [⟨1, [0]⟩], [0, 3], [], true⟩ : DistState)).1.availableMoves =
      (fun (_ : List (List Int)) (_ : List Int) => ([] : List Nat))
        (applyManualDistribution (fun _ _ => []) ⟨[[], []], [], []⟩
          (⟨⟨countTilesInBag [3], 0⟩, [⟨1, [0]⟩], [0, 3], [], true⟩ : DistState)).1.factory
        (applyManualDistribution (fun _ _ => []) ⟨[[], []], [], []⟩
          (⟨⟨countTilesInBag [3], 0⟩, [⟨1, [0]⟩], [0, 3], [], true⟩ : DistState)).1.tilebag :=
  claim_C2_apply_fidelity (fun _ _ => []) ⟨[[], []], [], []⟩
    (⟨⟨countTilesInBag [3], 0⟩, [⟨1, [0]⟩], [0, 3], [], true⟩ : DistState) 1
    (by decide) (by decide) (by decide) (by decide)

/-- Witness for claim C10: a drop whose payload parses to the
out-of-range color 9 is a no-op with no callback. -/
theorem claim_C10_invalid_drop_witness :
    handleDrop (⟨⟨countTilesInBag [], 0⟩, [⟨1, []⟩], [], [], true⟩ : DistState) 1 (some "9") =
      ((⟨⟨countTilesInBag [], 0⟩, [⟨1, []⟩], [], [], true⟩ : DistState), none) :=
  claim_C10_invalid_drop (⟨⟨countTilesInBag [], 0⟩, [⟨1, []⟩], [], [], true⟩ : DistState)
    1 (some "9")
    (Or.inr (Or.inr (Or.inr ⟨"9", 9, rfl, by decide, by decide⟩)))

end TilesWeb
